import Mathlib

set_option maxRecDepth 10000

/-!
Verification of the datawelder core against its specification.

This file gives a shallow embedding, in Lean 4, of the core operations of the
`datawelder` partitioned sort-merge join engine:

* the merge-join kernel `_join_partitions` (src/datawelder/join.py, lines 63-90),
* the output-layout resolver `_calculate_indices` (join.py, lines 93-116),
* the shard hasher `calculate_key` (src/datawelder/partition.py, lines 128-132),
  together with a complete executable MD5 implementation,
* the partitioning loop of `partition` (partition.py, lines 294-309),
* the per-shard sort `sort_partition` (partition.py, lines 251-276),
* `PartitionedFrame.__getitem__` (partition.py, lines 156-172),
* the record iterator `Partition.__next__` (partition.py, lines 236-248),
* the multi-writer pool `open_partitions` (partition.py, lines 91-125).

Python records are embedded as lists: input records read from shard files are
`List String` (every cell a string, as produced by the CSV reader), and joined
output rows are `List (Option String)` where `none` stands for Python `None`.
Python string comparison (`<` on `str`, lexicographic by Unicode code point) is
embedded as an executable comparison on `List Char`.
-/

/-- A cell of a joined output row: a string value or Python `None`. -/
abbrev Val := Option String

/-- An input record, as stored in a shard file: a tuple of strings. -/
abbrev PyRec := List String

/-! ## Python string comparison

Python compares strings lexicographically by Unicode code point.  Lean's
built-in `String` order is defined through iterators and does not reduce in
the kernel, so we use an explicit structural comparison on the character
lists. -/

/-- Lexicographic strict comparison of character lists (Python `str.__lt__`). -/
def charListLt : List Char → List Char → Bool
  | [], [] => false
  | [], _ :: _ => true
  | _ :: _, [] => false
  | a :: as, b :: bs =>
    if a < b then true
    else if b < a then false
    else charListLt as bs

/-- Python `a < b` on strings. -/
def pyStrLt (a b : String) : Bool :=
  charListLt a.data b.data

/-! ## The merge-join kernel (`_join_partitions`, join.py lines 63-90)

The kernel receives a list of shard iterators; the first is the left side,
the rest are right sides.  For each right side it keeps a one-record peek
slot, initialized to the right side's first record (`peek = [getnext(p) for p
in partitions]`).  Since a consumed iterator keeps returning `None` from
`getnext` and the peek is only ever replaced by `getnext`, the pair
(peek slot, unconsumed rest of the iterator) is exactly the list
`peek :: rest` of not-yet-discarded records; the `while` loop
(`while peek[i] is not None and peek[i][key_index] < leftkey`) is then
precisely `dropWhile (key < leftkey)` on that list, and the peek is its head.
The embedding threads that list through the loop as the right side's state. -/

/-- A shard as consumed by the join kernel: projected field names, index of
the join key among them, and the (lazily iterated) records. -/
structure Shard where
  field_names : List String
  key_index : Nat
  records : List PyRec
deriving Repr, DecidableEq

/-- `record[key_index]` for the join comparisons (records in the claims'
scope always have a field at the key index; out-of-range access is
totalized with `""`). -/
def getKey (ki : Nat) (r : PyRec) : String :=
  r.getD ki ""

/-- `mkdefault(p)`: a run of `None`s, one per field of the shard. -/
def mkdefault (p : Shard) : List Val :=
  List.replicate p.field_names.length none

/-- The `while` loop advancing a right side's peek: discard records whose key
is strictly below the left key; the new peek is the head of the result. -/
def fastForward (ki : Nat) (k : String) (recs : List PyRec) : List PyRec :=
  recs.dropWhile (fun r => pyStrLt (getKey ki r) k)

/-- The body of `for i, rightpart in enumerate(partitions)` for one left
record: advances each right side, extends the accumulated `joinedrecord`,
and — as in the source, where the `yield` sits inside this inner loop —
emits one (partial) row per right side.  Returns the emitted rows and the
updated right-side states. -/
def joinOne (joined : List Val) (k : String) :
    List Shard → List (List Val) × List Shard
  | [] => ([], [])
  | p :: ps =>
    let recs' := fastForward p.key_index k p.records
    let contrib :=
      match recs'.head? with
      | none => mkdefault p
      | some r => r.map some
    let joined' := joined ++ contrib
    let (rows, ps') := joinOne joined' k ps
    (joined' :: rows, { p with records := recs' } :: ps')

/-- The outer `for leftrecord in leftpart` loop, threading the right-side
states from one left record to the next. -/
def joinLoop (lki : Nat) (lrecs : List PyRec) (rights : List Shard) :
    List (List Val) :=
  match lrecs with
  | [] => []
  | lr :: rest =>
    let k := getKey lki lr
    let (rows, rights') := joinOne (lr.map some) k rights
    rows ++ joinLoop lki rest rights'

/-- `_join_partitions(partitions)`: pops the left shard and streams the join.
(On an empty list the Python raises `IndexError` from `partitions.pop(0)`;
that case is outside every claim and embedded as the empty output.) -/
def _join_partitions (parts : List Shard) : List (List Val) :=
  match parts with
  | [] => []
  | left :: rights => joinLoop left.key_index left.records rights

/-! ## The output-layout resolver (`_calculate_indices`, join.py lines 93-116)

`_calculate_indices` receives the joined frames (of which it only reads
`field_names`, so the embedding takes the list of headers directly) and an
optional list of selected fields `(framenum, fieldnum, optional name)`.  The
source's nested `for framenum, frame / for fieldnum, fieldname` loop is
embedded as a recursion carrying the current frame number. -/

/-- A selected field: dataset ordinal, field ordinal, optional output name
(the `Field` type alias of join.py). -/
abbrev JField := Nat × Nat × Option String

/-- The `joined_fields` list built by the nested loop: `(framenum, fieldnum)`
pairs for every field of every frame in frame order, starting at frame
number `framenum`. -/
def joinedFieldsFrom (framenum : Nat) : List (List String) → List (Nat × Nat)
  | [] => []
  | h :: t =>
    (List.range h.length).map (fun fieldnum => (framenum, fieldnum)) ++
      joinedFieldsFrom (framenum + 1) t

/-- The `default_names` list built by the nested loop:
`'%s_%d' % (fieldname, framenum)` for every field in frame order. -/
def defaultNamesFrom (framenum : Nat) : List (List String) → List String
  | [] => []
  | h :: t =>
    h.map (fun fieldname => fieldname ++ "_" ++ toString framenum) ++
      defaultNamesFrom (framenum + 1) t

/-- `_calculate_indices(frames, selected_fields)`.  With no selection it
returns the identity index list over all joined fields and the
frame-suffixed default names.  With a selection it maps each selected field
to its position in `joined_fields` (`list.index`, totalized to the list
length for an absent pair, where Python raises) and to its chosen name —
`opt_fieldname if opt_fieldname else default_names[idx]`, so an empty
(falsy) name also falls back to the default. -/
def _calculate_indices (frames : List (List String))
    (selected_fields : Option (List JField)) : List Nat × List String :=
  let joined_fields := joinedFieldsFrom 0 frames
  let default_names := defaultNamesFrom 0 frames
  let default_indices := List.range joined_fields.length
  match selected_fields with
  | none => (default_indices, default_names)
  | some sel =>
    (sel.map (fun f => joined_fields.indexOf (f.1, f.2.1)),
     sel.map (fun f =>
       let idx := joined_fields.indexOf (f.1, f.2.1)
       match f.2.2 with
       | some nm => if nm.isEmpty then default_names.getD idx "" else nm
       | none => default_names.getD idx ""))

/-- Every field of every frame in frame order, each name suffixed with its
frame number — an independent (`enumFrom`/`map`/`flatten`) formulation of
the layout, used to characterize the loop-based resolver. -/
def allFieldsSuffixed (frames : List (List String)) : List String :=
  ((frames.enumFrom 0).map
    (fun p => p.2.map (fun n => n ++ "_" ++ toString p.1))).flatten

/-! ## The shard hasher (`calculate_key`, partition.py lines 128-132)

`calculate_key(key, num_partitions)` stringifies the key, feeds its UTF-8
encoding to `hashlib.md5`, reads the hex digest as a (big-endian) integer
with `int(h.hexdigest(), 16)` and reduces it modulo `num_partitions`.  The
embedding implements MD5 (RFC 1321) executably over `Nat` byte lists, with
all 32-bit arithmetic taken modulo `2^32`. -/

/-- `2^32`, the word modulus of MD5. -/
def M32 : Nat := 4294967296

/-- Rotate a 32-bit word left by `c` bits. -/
def rotl32 (x c : Nat) : Nat :=
  ((x <<< c) ||| (x >>> (32 - c))) % M32

/-- The MD5 per-round left-rotation amounts. -/
def md5S : List Nat :=
  [7, 12, 17, 22, 7, 12, 17, 22, 7, 12, 17, 22, 7, 12, 17, 22,
   5, 9, 14, 20, 5, 9, 14, 20, 5, 9, 14, 20, 5, 9, 14, 20,
   4, 11, 16, 23, 4, 11, 16, 23, 4, 11, 16, 23, 4, 11, 16, 23,
   6, 10, 15, 21, 6, 10, 15, 21, 6, 10, 15, 21, 6, 10, 15, 21]

/-- The MD5 round constants `K[i] = floor(2^32 * |sin(i+1)|)`. -/
def md5K : List Nat :=
  [0xd76aa478, 0xe8c7b756, 0x242070db, 0xc1bdceee,
   0xf57c0faf, 0x4787c62a, 0xa8304613, 0xfd469501,
   0x698098d8, 0x8b44f7af, 0xffff5bb1, 0x895cd7be,
   0x6b901122, 0xfd987193, 0xa679438e, 0x49b40821,
   0xf61e2562, 0xc040b340, 0x265e5a51, 0xe9b6c7aa,
   0xd62f105d, 0x02441453, 0xd8a1e681, 0xe7d3fbc8,
   0x21e1cde6, 0xc33707d6, 0xf4d50d87, 0x455a14ed,
   0xa9e3e905, 0xfcefa3f8, 0x676f02d9, 0x8d2a4c8a,
   0xfffa3942, 0x8771f681, 0x6d9d6122, 0xfde5380c,
   0xa4beea44, 0x4bdecfa9, 0xf6bb4b60, 0xbebfbc70,
   0x289b7ec6, 0xeaa127fa, 0xd4ef3085, 0x04881d05,
   0xd9d4d039, 0xe6db99e5, 0x1fa27cf8, 0xc4ac5665,
   0xf4292244, 0x432aff97, 0xab9423a7, 0xfc93a039,
   0x655b59c3, 0x8f0ccc92, 0xffeff47d, 0x85845dd1,
   0x6fa87e4f, 0xfe2ce6e0, 0xa3014314, 0x4e0811a1,
   0xf7537e82, 0xbd3af235, 0x2ad7d2bb, 0xeb86d391]

/-- The MD5 mixing function of round `i` (on 32-bit words `b`, `c`, `d`)
together with the message-word index used in that round.  Bitwise complement
of a 32-bit word is `xor` with `0xffffffff`. -/
def md5F (i b c d : Nat) : Nat × Nat :=
  if i < 16 then ((b &&& c) ||| ((b ^^^ 0xffffffff) &&& d), i)
  else if i < 32 then ((d &&& b) ||| ((d ^^^ 0xffffffff) &&& c), (5 * i + 1) % 16)
  else if i < 48 then (b ^^^ c ^^^ d, (3 * i + 5) % 16)
  else (c ^^^ (b ||| (d ^^^ 0xffffffff)), (7 * i) % 16)

/-- One MD5 round: rotate the state `(a, b, c, d)` mixing in message word
`m[g]`, constant `K[i]` and shift `s[i]`. -/
def md5Step (m : List Nat) (st : Nat × Nat × Nat × Nat) (i : Nat) :
    Nat × Nat × Nat × Nat :=
  let (a, b, c, d) := st
  let (f, g) := md5F i b c d
  let f' := (f + a + md5K.getD i 0 + m.getD g 0) % M32
  (d, (b + rotl32 f' (md5S.getD i 0)) % M32, b, c)

/-- Split a 64-byte block into 16 little-endian 32-bit words. -/
def toLEWords : List Nat → List Nat
  | b0 :: b1 :: b2 :: b3 :: rest =>
    (b0 + 256 * b1 + 65536 * b2 + 16777216 * b3) :: toLEWords rest
  | _ => []

/-- `count` little-endian bytes of `v`. -/
def leBytes : Nat → Nat → List Nat
  | 0, _ => []
  | k + 1, v => (v % 256) :: leBytes k (v / 256)

/-- MD5 padding: append `0x80`, zero-pad to 56 mod 64 bytes, then append the
original length in bits as 8 little-endian bytes. -/
def md5Pad (msg : List Nat) : List Nat :=
  msg ++ [0x80] ++
    List.replicate ((120 - ((msg.length + 1) % 64)) % 64) 0 ++
    leBytes 8 (8 * msg.length)

/-- Compress one 64-byte block into the running state. -/
def md5Compress (st : Nat × Nat × Nat × Nat) (block : List Nat) :
    Nat × Nat × Nat × Nat :=
  let m := toLEWords block
  let (a, b, c, d) := (List.range 64).foldl (md5Step m) st
  ((st.1 + a) % M32, (st.2.1 + b) % M32, (st.2.2.1 + c) % M32,
   (st.2.2.2 + d) % M32)

/-- Fold the compression function over the 64-byte blocks of a padded
message.  Structural recursion on a fuel counter (each step consumes at
least one byte, so `bytes.length` blocks always suffice); fuel never runs
out on a nonempty remainder. -/
def md5BlocksFuel (st : Nat × Nat × Nat × Nat) :
    Nat → List Nat → Nat × Nat × Nat × Nat
  | 0, _ => st
  | _, [] => st
  | fuel + 1, b :: rest =>
    md5BlocksFuel (md5Compress st (b :: rest.take 63)) fuel (rest.drop 63)

/-- Fold the compression function over all 64-byte blocks. -/
def md5Blocks (st : Nat × Nat × Nat × Nat) (bytes : List Nat) :
    Nat × Nat × Nat × Nat :=
  md5BlocksFuel st bytes.length bytes

/-- The 16-byte MD5 digest of a byte string: initialize the chaining state,
compress all padded blocks, serialize each state word little-endian. -/
def md5Digest (msg : List Nat) : List Nat :=
  let (a, b, c, d) :=
    md5Blocks (0x67452301, 0xefcdab89, 0x98badcfe, 0x10325476) (md5Pad msg)
  leBytes 4 a ++ leBytes 4 b ++ leBytes 4 c ++ leBytes 4 d

/-- `int(h.hexdigest(), 16)`: the digest bytes read as one big-endian
integer (the hex digest prints the bytes in order, most significant
first). -/
def hexdigestInt (msg : List Nat) : Nat :=
  (md5Digest msg).foldl (fun acc byte => acc * 256 + byte) 0

/-- UTF-8 encoding of one character (by Unicode scalar value). -/
def utf8EncodeChar (c : Char) : List Nat :=
  let v := c.toNat
  if v < 0x80 then [v]
  else if v < 0x800 then
    [0xC0 ||| (v >>> 6), 0x80 ||| (v &&& 0x3F)]
  else if v < 0x10000 then
    [0xE0 ||| (v >>> 12), 0x80 ||| ((v >>> 6) &&& 0x3F), 0x80 ||| (v &&& 0x3F)]
  else
    [0xF0 ||| (v >>> 18), 0x80 ||| ((v >>> 12) &&& 0x3F),
     0x80 ||| ((v >>> 6) &&& 0x3F), 0x80 ||| (v &&& 0x3F)]

/-- `key.encode('utf-8')` (`datawelder.readwrite.ENCODING` is `'utf-8'`). -/
def utf8Encode (s : String) : List Nat :=
  (s.data.map utf8EncodeChar).flatten

/-- A Python key value as passed to `calculate_key`: the partitioner's keys
are strings, but integer keys are accepted and stringified by `str(key)`. -/
inductive PyKey where
  | str (s : String)
  | int (z : Int)
deriving Repr, DecidableEq

/-- Python `str(key)` for the supported key values (`str` is the identity on
strings; integers print in decimal, negatives with a leading minus). -/
def pyStr : PyKey → String
  | .str s => s
  | .int z => toString z

/-- `calculate_key(key, num_partitions)` (partition.py lines 128-132):
MD5 the UTF-8 encoding of `str(key)`, read the hex digest as an integer,
reduce modulo `num_partitions`. -/
def calculate_key (key : PyKey) (num_partitions : Nat) : Nat :=
  hexdigestInt (utf8Encode (pyStr key)) % num_partitions

/-! ## The partitioning loop (`partition`, partition.py lines 294-309)

For each reader record the partitioner takes `record[reader.key_index]`,
skipping the record (with a logged error) when that raises `IndexError`;
it then `assert key is not None` — a null key aborts the run with
`AssertionError` — computes `key_function(key, num_partitions)` and appends
the full record to that partition's stream.  Reader records may contain
nulls (the JSON reader fills absent fields with `None`), so a reader record
is `List Val`.  The partition streams are embedded as the list of records
written to each of the `num_partitions` sinks. -/

/-- The record loop of `partition`, threading the per-partition streams. -/
def writeRecords (ki : Nat) (num_partitions : Nat) (kf : String → Nat → Nat) :
    List (List Val) → List (List (List Val)) →
      Except String (List (List (List Val)))
  | [], buckets => .ok buckets
  | r :: rest, buckets =>
    if h : ki < r.length then
      match r.get ⟨ki, h⟩ with
      | none => .error "AssertionError: key is not None"
      | some k =>
        let idx := kf k num_partitions
        if hidx : idx < buckets.length then
          writeRecords ki num_partitions kf rest
            (buckets.set idx (buckets.get ⟨idx, hidx⟩ ++ [r]))
        else .error "IndexError: partition index out of range"
    else
      writeRecords ki num_partitions kf rest buckets

/-- The default `key_function` argument of `partition` is `calculate_key`;
the keys handed to it by the record loop are strings. -/
def kfString (s : String) (n : Nat) : Nat :=
  calculate_key (.str s) n

/-- `partition(reader, ...)` restricted to its record-routing loop: start
with `num_partitions` empty partition streams and route every reader
record. -/
def py_partition (records : List (List Val)) (ki : Nat)
    (num_partitions : Nat) (kf : String → Nat → Nat) :
    Except String (List (List (List Val))) :=
  writeRecords ki num_partitions kf records
    (List.replicate num_partitions [])

/-! ## The per-shard sort (`sort_partition`, partition.py lines 251-276)

`sort_partition` loads all records of a shard and rewrites them as
`sorted(records, key=lambda r: r[key_index])` — Python's stable ascending
sort on the key field.  A stable ascending comparison sort is embedded as
insertion sort: an element is inserted after every earlier element whose key
is not strictly greater, which preserves the original relative order of
equal keys. -/

/-- Stable insertion of one record into an (ascending, by key) record list:
walk past records with a strictly smaller key and also past records with an
equal key (they were earlier in the original order). -/
def insertRec (ki : Nat) (x : PyRec) : List PyRec → List PyRec
  | [] => [x]
  | y :: ys =>
    if pyStrLt (getKey ki y) (getKey ki x) then y :: insertRec ki x ys
    else x :: y :: ys

/-- The insertion sort underlying the embedding of `sorted`. -/
def insertionSortRec (ki : Nat) : List PyRec → List PyRec
  | [] => []
  | x :: xs => insertRec ki x (insertionSortRec ki xs)

/-- `sort_partition(path, key_index)`: the records of the shard at `path`,
rewritten in stable ascending order of `r[key_index]`. -/
def sort_partition (records : List PyRec) (key_index : Nat) : List PyRec :=
  insertionSortRec key_index records

/-! ## Frame indexing (`PartitionedFrame.__getitem__`, partition.py 156-172)

A `PartitionedFrame` carries the manifest (`field_names`, `key_index`,
`num_partitions`) plus the in-memory `selected_fields` projection (set to
`field_names` on load, replaced by `select()`).  `__getitem__` rejects a
non-integer key (`ValueError`; the embedding's argument is an integer, so
that branch is vacuous), rejects `key >= num_partitions` (`ValueError`),
builds the projected names — inserting the key name at position 0 when the
projection omits it — and returns a `Partition`. -/

/-- The manifest plus projection state of a `PartitionedFrame`. -/
structure FrameConfig where
  field_names : List String
  key_index : Nat
  num_partitions : Nat
  selected_fields : List String
deriving Repr, DecidableEq

/-- `self.key_name`: the name of the partition key
(`field_names[key_index]`, totalized with `""`). -/
def FrameConfig.key_name (cfg : FrameConfig) : String :=
  cfg.field_names.getD cfg.key_index ""

/-- A `Partition` handle as constructed by `__getitem__`: the shard number
(standing for the formatted shard path), the indices of the projected fields
in the stored record, their names, and the key's position among them. -/
structure PyPartition where
  number : Int
  field_indices : List Nat
  field_names : List String
  key_index : Nat
deriving Repr, DecidableEq

/-- `PartitionedFrame.__getitem__` (partition.py lines 156-172).  Note the
only bound check the source performs is `partition_number >= len(self)`;
`list.index` positions are embedded with `indexOf` (the projected names are
all field names in the claims' scope). -/
def frame_getitem (cfg : FrameConfig) (key : Int) : Except String PyPartition :=
  if (cfg.num_partitions : Int) ≤ key then
    .error ("key must be less than " ++ toString cfg.num_partitions)
  else
    let names :=
      if cfg.key_name ∈ cfg.selected_fields then cfg.selected_fields
      else cfg.key_name :: cfg.selected_fields
    let indices := names.map (fun f => cfg.field_names.indexOf f)
    let keyindex := names.indexOf cfg.key_name
    .ok ⟨key, indices, names, keyindex⟩

/-- `.ok`-ness of a `__getitem__` result (did the call return a shard rather
than raise?). -/
def exceptIsOk {α : Type} : Except String α → Bool
  | .ok _ => true
  | .error _ => false

/-! ## The shard record iterator (`Partition.__next__`, partition.py 236-248)

`__next__` lazily opens the shard file on first use (`self._fin` starts as
`None`) and `pickle.load`s one record per call, raising `StopIteration` at
`EOFError`; the file handle is never rewound or reset, so its position
survives exhaustion.  The embedding models the handle as an optional read
position into the shard's stored records (`none` = file not yet opened;
opening positions at 0) and `list(partition)` as draining from the current
position. -/

/-- `[record[i] for i in self.field_indices]` — the projection `__next__`
applies to each loaded record (records in the claims' scope have every
projected field; out-of-range access is totalized with `""`). -/
def projectRecord (indices : List Nat) (r : PyRec) : PyRec :=
  indices.map (fun i => r.getD i "")

/-- Drain records from position `pos`, fuelled structurally (one record per
fuel unit; callers pass enough fuel to reach the end of the file).  Returns
the yielded projections and the final handle position. -/
def drainFuel (content : List PyRec) (indices : List Nat) :
    Nat → Nat → List PyRec × Nat
  | 0, pos => ([], pos)
  | fuel + 1, pos =>
    if h : pos < content.length then
      let rest := drainFuel content indices fuel (pos + 1)
      (projectRecord indices (content.get ⟨pos, h⟩) :: rest.1, rest.2)
  else ([], pos)

/-- `list(partition)` from file state `fin` (`none` = `self._fin is None`):
iterate `__next__` until `StopIteration`, returning the yielded records and
the file state left behind. -/
def partIterate (content : List PyRec) (indices : List Nat)
    (fin : Option Nat) : List PyRec × Option Nat :=
  let pos := fin.getD 0
  let r := drainFuel content indices (content.length + 1) pos
  (r.1, some r.2)

/-! ## The multi-writer pool (`open_partitions`, partition.py lines 91-125)

`open_partitions` is a generator-based context manager
(`@contextlib.contextmanager`): it opens one stream per partition before the
`yield`, and the close loop sits after the `yield` with no `try`/`finally`.
Under `contextlib`, code after a bare `yield` runs only when the `with` body
finishes normally; an exception in the body is thrown into the generator at
the `yield` point and propagates immediately, skipping the close loop.
Streams are identified by their partition number; the result records each
stream's open flag after the `with` block (`true` = still open). -/

def open_partitions (num_partitions : Nat)
    (body : List Nat → Except String Unit) : Except String Unit × List Bool :=
  let streams := List.range num_partitions
  let opened := streams.map (fun _ => true)
  match body streams with
  | .ok a => (.ok a, opened.map (fun _ => false))
  | .error e => (.error e, opened)

/-! ## Theorems -/

/-- **C4.** The shard hasher is a pure function of `(key, N)` (it is a plain
function of those two arguments): it stringifies the key, MD5-hashes the
UTF-8 encoding, and reduces the hex-digest integer modulo `N`, so the result
is always in `[0, N)` for `N > 0`; and it takes the four reference values of
spec scenario S1.  (The stringification of integer keys is exercised by
`calculate_key_int_is_stringified` below, matching
`tests/test_partition.py::test_calculate_key_int`.) -/
theorem calculate_key_c4 :
    (∀ (key : PyKey) (n : Nat), 0 < n → calculate_key key n < n) ∧
    calculate_key (.str "hello world") 1000 = 291 ∧
    calculate_key (.str "AU") 5 = 3 ∧
    calculate_key (.str "JP") 5 = 4 ∧
    calculate_key (.str "RU") 5 = 0 :=
  ⟨fun _ _ h => Nat.mod_lt _ h, by decide, by decide, by decide, by decide⟩

/-- Witness for `calculate_key_c4`: the range bound discharged at the
concrete key `"AU"` with `N = 5`. -/
theorem calculate_key_c4_witness :
    0 < 5 ∧ calculate_key (.str "AU") 5 < 5 :=
  ⟨by decide, calculate_key_c4.1 (.str "AU") 5 (by decide)⟩

/-- Integer keys are stringified before hashing: `calculate_key(123, 1000)`
hashes the string `"123"` (the value the repository's own test
`test_calculate_key_int` expects). -/
theorem calculate_key_int_is_stringified :
    calculate_key (.int 123) 1000 = 808 ∧
    calculate_key (.int 123) 1000 = calculate_key (.str "123") 1000 :=
  ⟨by decide, by decide⟩

/-- **C3 counterexample.** The claim says a record whose key value is null is
logged, skipped, and processing continues.  In the code only the
`IndexError` of an *absent* key field is caught; a present-but-null key hits
`assert key is not None` and aborts the run: partitioning the single record
`(None, "x")` with key index 0 raises instead of producing two (empty)
partition streams. -/
theorem partition_null_key_c3_cex :
    py_partition [[none, some "x"]] 0 2 kfString =
      .error "AssertionError: key is not None" ∧
    py_partition [[none, some "x"]] 0 2 kfString ≠
      .ok [[], []] := by
  refine ⟨rfl, ?_⟩
  intro h
  rw [show py_partition [[none, some "x"]] 0 2 kfString =
      Except.error "AssertionError: key is not None" from rfl] at h
  exact Except.noConfusion h

/-- **C3 (amended).** A record whose key field is *absent* (index out of
range) is logged and skipped and the run continues with the remaining
records; but a record whose key is present and *null* aborts the run with an
assertion error. -/
theorem partition_skip_and_null_c3_amended :
    (∀ (r : List Val) (recs : List (List Val)) (ki n : Nat)
        (kf : String → Nat → Nat), r.length ≤ ki →
        py_partition (r :: recs) ki n kf = py_partition recs ki n kf) ∧
    (∀ (r : List Val) (recs : List (List Val)) (ki n : Nat)
        (kf : String → Nat → Nat) (h : ki < r.length), r.get ⟨ki, h⟩ = none →
        py_partition (r :: recs) ki n kf =
          .error "AssertionError: key is not None") := by
  constructor
  · intro r recs ki n kf hle
    simp [py_partition, writeRecords, Nat.not_lt.2 hle]
  · intro r recs ki n kf h hnone
    have hnone' : r[ki] = none := by simpa using hnone
    simp [py_partition, writeRecords, h, hnone']

/-- Witness for `partition_skip_and_null_c3_amended`: the skip branch at a
record with only one field and key index 5, the abort branch at a record
with a null key. -/
theorem partition_skip_and_null_c3_witness :
    py_partition [[some "x"], [some "AU", some "Australia"]] 5 2 kfString =
      py_partition [[some "AU", some "Australia"]] 5 2 kfString ∧
    py_partition [[none, some "x"]] 0 2 kfString =
      .error "AssertionError: key is not None" :=
  ⟨partition_skip_and_null_c3_amended.1 [some "x"]
      [[some "AU", some "Australia"]] 5 2 kfString (by decide),
   partition_skip_and_null_c3_amended.2 [none, some "x"] [] 0 2 kfString
      (by decide) rfl⟩

/-- **C7 counterexample.** The claim says every `i ∉ [0, N)` — including
every negative `i` — is rejected with an invalid-argument error.  The code
only checks `partition_number >= len(self)`: indexing a 4-partition frame
with `-1` succeeds and returns a shard handle (whose path is formatted from
the negative number). -/
theorem getitem_negative_c7_cex :
    frame_getitem ⟨["iso", "name"], 0, 4, ["iso", "name"]⟩ (-1) =
      .ok ⟨-1, [0, 1], ["iso", "name"], 0⟩ ∧
    exceptIsOk (frame_getitem ⟨["iso", "name"], 0, 4, ["iso", "name"]⟩ (-1)) =
      true := ⟨rfl, rfl⟩

/-- **C7 (amended).** Indexing with `i ≥ N` fails with the invalid-argument
error; any integer `i < N` — including every negative `i` — is accepted and
returns a shard. -/
theorem getitem_bounds_c7_amended (cfg : FrameConfig) (i : Int) :
    ((cfg.num_partitions : Int) ≤ i →
      frame_getitem cfg i =
        .error ("key must be less than " ++ toString cfg.num_partitions)) ∧
    (i < (cfg.num_partitions : Int) →
      exceptIsOk (frame_getitem cfg i) = true) := by
  constructor
  · intro h
    simp [frame_getitem, h]
  · intro h
    simp [frame_getitem, Int.not_le.2 h, exceptIsOk]

/-- Witness for `getitem_bounds_c7_amended`: the error branch at `i = 7` and
the accepting branch at `i = -1` on a 4-partition frame. -/
theorem getitem_bounds_c7_witness :
    frame_getitem ⟨["iso", "name"], 0, 4, ["iso", "name"]⟩ 7 =
      .error "key must be less than 4" ∧
    exceptIsOk (frame_getitem ⟨["iso", "name"], 0, 4, ["iso", "name"]⟩ (-1)) =
      true :=
  ⟨(getitem_bounds_c7_amended ⟨["iso", "name"], 0, 4, ["iso", "name"]⟩ 7).1
      (by decide),
   (getitem_bounds_c7_amended ⟨["iso", "name"], 0, 4, ["iso", "name"]⟩ (-1)).2
      (by decide)⟩

/-- **C8 counterexample.** The claim says every opened sink is flushed and
closed on exit whether the body completes or raises.  The close loop of
`open_partitions` sits after a bare `yield` with no `try`/`finally`, so when
the `with` body raises, both opened streams of a 2-partition pool are left
open. -/
theorem open_partitions_c8_cex :
    (open_partitions 2 (fun _ => .error "write failed")).2 = [true, true] ∧
    ([true, true] : List Bool) ≠ [false, false] := ⟨rfl, by decide⟩

/-- **C8 (amended).** The pool propagates the body's outcome; every opened
sink is closed when the body completes normally, but when the body raises,
the close loop after the `yield` is skipped and every opened sink is left
open. -/
theorem open_partitions_c8_amended (n : Nat)
    (body : List Nat → Except String Unit) :
    ((open_partitions n body).1 = body (List.range n)) ∧
    (∀ u, body (List.range n) = .ok u →
      (open_partitions n body).2 = List.replicate n false) ∧
    (∀ e, body (List.range n) = .error e →
      (open_partitions n body).2 = List.replicate n true) := by
  refine ⟨?_, ?_, ?_⟩
  · cases h : body (List.range n) <;> simp [open_partitions, h]
  · intro u h
    simp [open_partitions, h, List.map_const', List.length_range]
  · intro e h
    simp [open_partitions, h, List.map_const', List.length_range]

/-- Witness for `open_partitions_c8_amended`: a single-sink pool closed on a
normal body and leaked on a raising body. -/
theorem open_partitions_c8_witness :
    (open_partitions 1 (fun _ => .ok ())).2 = List.replicate 1 false ∧
    (open_partitions 1 (fun _ => .error "boom")).2 = List.replicate 1 true :=
  ⟨(open_partitions_c8_amended 1 (fun _ => .ok ())).2.1 () rfl,
   (open_partitions_c8_amended 1 (fun _ => .error "boom")).2.2 "boom" rfl⟩

/-- **C9 counterexample.** The claim says a shard's record iterator is
restartable.  `Partition.__next__` never rewinds `self._fin`: after a full
iteration of a one-record shard the handle sits at end-of-file, and a second
iteration yields the empty sequence, not the same records. -/
theorem partition_iter_c9_cex :
    (partIterate [["AU", "Australia"]] [0, 1] none).1 =
      [["AU", "Australia"]] ∧
    (partIterate [["AU", "Australia"]] [0, 1]
        (partIterate [["AU", "Australia"]] [0, 1] none).2).1 = [] ∧
    ([] : List PyRec) ≠ [["AU", "Australia"]] := ⟨rfl, rfl, by decide⟩

/-- **C1.** The claim states the left-outer merge contract: on sorted shards,
every left record yields exactly one output row of width
`|L.fields| + Σ |Rj.fields|`, carrying for each right side either the
equal-keyed right record or `|Rj.fields|` nulls.  The shipped kernel violates
this on both of the repository's own test scenarios (the `yield` sits inside
the per-right-side loop, and the peek is concatenated without an equality
check): on the three-way scenario of `tests/test_join.py::test_join_threeway`
(spec scenario S5) each of the two left records produces **two** rows, of
widths 4 and 6; and on the missing-left scenario of
`tests/test_join.py::test_join_partitions_missing_left` (spec scenario S3)
the left record `("KP", "Kraplakistan")` is concatenated with the
key-mismatched right record `("RU", "Rouble")` instead of two nulls.  This
theorem evaluates the embedded kernel at both failing inputs. -/
theorem joinKernel_c1_failing_eval :
    _join_partitions
      [⟨["iso3", "name"], 0, [["AU", "Australia"], ["RU", "Russia"]]⟩,
       ⟨["iso", "currency"], 0, [["AU", "Dollar"], ["RU", "Rouble"]]⟩,
       ⟨["iso", "capital"], 0, [["AU", "Canberra"], ["RU", "Moscow"]]⟩] =
      [[some "AU", some "Australia", some "AU", some "Dollar"],
       [some "AU", some "Australia", some "AU", some "Dollar", some "AU", some "Canberra"],
       [some "RU", some "Russia", some "RU", some "Rouble"],
       [some "RU", some "Russia", some "RU", some "Rouble", some "RU", some "Moscow"]] ∧
    _join_partitions
      [⟨["iso", "name"], 0, [["AU", "Australia"], ["KP", "Kraplakistan"], ["RU", "Russia"]]⟩,
       ⟨["iso3", "currency"], 0, [["AU", "Dollar"], ["RU", "Rouble"]]⟩] =
      [[some "AU", some "Australia", some "AU", some "Dollar"],
       [some "KP", some "Kraplakistan", some "RU", some "Rouble"],
       [some "RU", some "Russia", some "RU", some "Rouble"]] := by
  constructor <;> rfl

/-- **C2.** The claim states that the kernel detects out-of-order input and
fails with a sort-violation error.  The shipped kernel performs no order
check at all: on the decreasing-key left shard of
`tests/test_join.py::test_join_partitions_unsorted_left` (which expects
`RuntimeError`) it silently completes and emits rows — the second of which
even pairs `("AU", "Australia")` with the key-mismatched `("RU", "Rouble")`.
This theorem evaluates the embedded kernel at that failing input, showing it
runs to completion and produces output. -/
theorem joinKernel_c2_failing_eval :
    _join_partitions
      [⟨["iso", "name"], 0, [["RU", "Russia"], ["AU", "Australia"]]⟩,
       ⟨["iso3", "currency"], 0, [["AU", "Dollar"], ["RU", "Rouble"]]⟩] =
      [[some "RU", some "Russia", some "RU", some "Rouble"],
       [some "AU", some "Australia", some "RU", some "Rouble"]] := by
  rfl

/-- **C5 counterexample.** The claim says the default layout disambiguates
only duplicate field names and suppresses the right-side copies of the join
key.  On headers `[["iso", "name"], ["iso", "currency"]]` (join key `iso`)
the claim therefore keeps the unique name `"currency"` unsuffixed and omits
the right copy of the key; the code instead suffixes every name with its
frame number (`"currency"` is absent, `"currency_1"` is present) and keeps
the right-side key copy as `"iso_1"`. -/
theorem calculate_indices_c5_cex :
    (_calculate_indices [["iso", "name"], ["iso", "currency"]] none).2 =
      ["iso_0", "name_0", "iso_1", "currency_1"] ∧
    "currency" ∉ (_calculate_indices [["iso", "name"], ["iso", "currency"]] none).2 ∧
    "iso_1" ∈ (_calculate_indices [["iso", "name"], ["iso", "currency"]] none).2 := by
  refine ⟨rfl, by decide, by decide⟩

theorem defaultNamesFrom_eq_enumFrom (frames : List (List String)) :
    ∀ k, defaultNamesFrom k frames =
      ((frames.enumFrom k).map
        (fun p => p.2.map (fun n => n ++ "_" ++ toString p.1))).flatten := by
  induction frames with
  | nil => intro k; rfl
  | cons h t ih => intro k; simp [defaultNamesFrom, List.enumFrom, ih]

theorem joinedFieldsFrom_length (frames : List (List String)) :
    ∀ k, (joinedFieldsFrom k frames).length = (frames.map List.length).sum := by
  induction frames with
  | nil => intro k; rfl
  | cons h t ih => intro k; simp [joinedFieldsFrom, ih]

theorem defaultNamesFrom_length (frames : List (List String)) :
    ∀ k, (defaultNamesFrom k frames).length = (frames.map List.length).sum := by
  induction frames with
  | nil => intro k; rfl
  | cons h t ih => intro k; simp [defaultNamesFrom, ih]

/-- **C5 (amended).** When no selection expression is given, the resolved
layout contains every field of every frame in frame order with the identity
index mapping, and **every** field name — duplicate or not — is suffixed
with `_FRAMENUM`; the right-side copies of the join key are retained, not
suppressed (the layout width is the full sum of the frame widths). -/
theorem calculate_indices_default_c5_amended (frames : List (List String)) :
    (_calculate_indices frames none).1 =
      List.range ((frames.map List.length).sum) ∧
    (_calculate_indices frames none).2 = allFieldsSuffixed frames ∧
    (_calculate_indices frames none).2.length = (frames.map List.length).sum := by
  refine ⟨?_, ?_, ?_⟩
  · show List.range (joinedFieldsFrom 0 frames).length = _
    rw [joinedFieldsFrom_length]
  · exact defaultNamesFrom_eq_enumFrom frames 0
  · exact defaultNamesFrom_length frames 0

theorem drainFuel_of_length_le (content : List PyRec) (indices : List Nat) :
    ∀ (fuel pos : Nat), content.length ≤ pos →
      drainFuel content indices fuel pos = ([], pos) := by
  intro fuel
  cases fuel with
  | zero => intro pos _; rfl
  | succ n => intro pos h; simp [drainFuel, Nat.not_lt.2 h]

theorem drainFuel_final_ge (content : List PyRec) (indices : List Nat) :
    ∀ (fuel pos : Nat), content.length < pos + fuel →
      content.length ≤ (drainFuel content indices fuel pos).2 := by
  intro fuel
  induction fuel with
  | zero => intro pos h; simpa [drainFuel] using Nat.le_of_lt h
  | succ n ih =>
    intro pos h
    by_cases hp : pos < content.length
    · have := ih (pos + 1) (by omega)
      simp [drainFuel, hp, this]
    · simp [drainFuel, hp]
      omega

theorem drainFuel_all (content : List PyRec) (indices : List Nat) :
    ∀ (fuel pos : Nat), content.length ≤ pos + fuel →
      (drainFuel content indices fuel pos).1 =
        (content.drop pos).map (projectRecord indices) := by
  intro fuel
  induction fuel with
  | zero =>
    intro pos h
    simp [drainFuel, List.drop_eq_nil_of_le (by omega : content.length ≤ pos)]
  | succ n ih =>
    intro pos h
    by_cases hp : pos < content.length
    · rw [List.drop_eq_getElem_cons hp]
      simp [drainFuel, hp, ih (pos + 1) (by omega)]
      conv_rhs => rw [List.drop_eq_getElem_cons
        (show pos < (List.map (projectRecord indices) content).length by
          simpa using hp)]
      simp
    · simp [drainFuel, hp,
        List.drop_eq_nil_of_le (by omega : content.length ≤ pos)]

/-- **C9 (amended).** A shard's record iterator is single-use, not
restartable: a fresh iteration yields the projections of all stored records,
but it leaves the file handle at end-of-file, and iterating again from the
state left behind by any full iteration yields the empty sequence. -/
theorem partition_iter_second_empty_c9_amended (content : List PyRec)
    (indices : List Nat) :
    (partIterate content indices none).1 =
      content.map (projectRecord indices) ∧
    ∀ fin : Option Nat,
      (partIterate content indices
        (partIterate content indices fin).2).1 = [] := by
  constructor
  · simpa [partIterate] using
      drainFuel_all content indices (content.length + 1) 0 (by omega)
  · intro fin
    have h2 : content.length ≤
        (drainFuel content indices (content.length + 1) (fin.getD 0)).2 :=
      drainFuel_final_ge content indices (content.length + 1) (fin.getD 0)
        (by omega)
    simp [partIterate, drainFuel_of_length_le content indices _ _ h2]

theorem charListLt_irrefl : ∀ a : List Char, charListLt a a = false := by
  intro a
  induction a with
  | nil => rfl
  | cons a0 as ih => simp [charListLt, lt_irrefl, ih]

theorem charListLt_trans : ∀ a b c : List Char,
    charListLt a b = true → charListLt b c = true → charListLt a c = true := by
  intro a
  induction a with
  | nil =>
    intro b c hab hbc
    cases b with
    | nil => simp [charListLt] at hab
    | cons b0 bs =>
      cases c with
      | nil => simp [charListLt] at hbc
      | cons c0 cs => simp [charListLt]
  | cons a0 as ih =>
    intro b c hab hbc
    cases b with
    | nil => simp [charListLt] at hab
    | cons b0 bs =>
      cases c with
      | nil => simp [charListLt] at hbc
      | cons c0 cs =>
        simp only [charListLt] at hab hbc ⊢
        by_cases h1 : a0 < b0 <;> by_cases h2 : b0 < c0
        · simp [lt_trans h1 h2]
        · simp [h2] at hbc
          rcases hbc with ⟨h3, _⟩
          have hbc0 : b0 = c0 := le_antisymm h3 (not_lt.1 h2)
          simp [hbc0 ▸ h1]
        · simp [h1] at hab
          rcases hab with ⟨h3, _⟩
          have hab0 : a0 = b0 := le_antisymm h3 (not_lt.1 h1)
          simp [hab0 ▸ h2]
        · simp [h1] at hab
          simp [h2] at hbc
          rcases hab with ⟨h3, hab'⟩
          rcases hbc with ⟨h4, hbc'⟩
          have hab0 : a0 = b0 := le_antisymm h3 (not_lt.1 h1)
          have hbc0 : b0 = c0 := le_antisymm h4 (not_lt.1 h2)
          subst hab0
          subst hbc0
          simp [lt_irrefl, ih bs cs hab' hbc']

theorem charListLt_eq_of_not : ∀ a b : List Char,
    charListLt a b = false → charListLt b a = false → a = b := by
  intro a
  induction a with
  | nil =>
    intro b hab _
    cases b with
    | nil => rfl
    | cons b0 bs => simp [charListLt] at hab
  | cons a0 as ih =>
    intro b hab hba
    cases b with
    | nil => simp [charListLt] at hba
    | cons b0 bs =>
      simp only [charListLt] at hab hba
      by_cases h1 : a0 < b0
      · simp [h1] at hab
      · by_cases h2 : b0 < a0
        · simp [h1, h2] at hba
        · simp [h1, h2] at hab hba
          have : a0 = b0 := le_antisymm (not_lt.1 h2) (not_lt.1 h1)
          rw [this, ih bs hab hba]

theorem charListLt_asymm {a b : List Char} (h : charListLt a b = true) :
    charListLt b a = false := by
  by_contra hba
  rw [Bool.not_eq_false] at hba
  have := charListLt_trans a b a h hba
  rw [charListLt_irrefl] at this
  exact Bool.false_ne_true this

theorem charListLt_false_trans {a b c : List Char}
    (hba : charListLt b a = false) (hcb : charListLt c b = false) :
    charListLt c a = false := by
  by_contra hca
  rw [Bool.not_eq_false] at hca
  cases hab : charListLt a b with
  | true =>
    have := charListLt_trans c a b hca hab
    rw [hcb] at this
    exact Bool.false_ne_true this
  | false =>
    have heq : a = b := charListLt_eq_of_not a b hab hba
    rw [heq, hcb] at hca
    exact Bool.false_ne_true hca

theorem pyStrLt_irrefl (a : String) : pyStrLt a a = false :=
  charListLt_irrefl a.data

theorem pyStrLt_asymm {a b : String} (h : pyStrLt a b = true) :
    pyStrLt b a = false :=
  charListLt_asymm h

theorem pyStrLt_false_trans {a b c : String} (hba : pyStrLt b a = false)
    (hcb : pyStrLt c b = false) : pyStrLt c a = false :=
  charListLt_false_trans hba hcb

theorem insertRec_perm (ki : Nat) (x : PyRec) :
    ∀ l : List PyRec, (insertRec ki x l).Perm (x :: l) := by
  intro l
  induction l with
  | nil => simp [insertRec]
  | cons y ys ih =>
    by_cases h : pyStrLt (getKey ki y) (getKey ki x) = true
    · simp only [insertRec, if_pos h]
      exact (ih.cons y).trans (List.Perm.swap x y ys)
    · simp [insertRec, h]

theorem mem_insertRec {ki : Nat} {x z : PyRec} {l : List PyRec}
    (h : z ∈ insertRec ki x l) : z = x ∨ z ∈ l := by
  have := (insertRec_perm ki x l).mem_iff.1 h
  simpa using this

theorem pairwise_insertRec (ki : Nat) (x : PyRec) :
    ∀ l : List PyRec,
      l.Pairwise (fun a b => pyStrLt (getKey ki b) (getKey ki a) = false) →
      (insertRec ki x l).Pairwise
        (fun a b => pyStrLt (getKey ki b) (getKey ki a) = false) := by
  intro l
  induction l with
  | nil => intro _; simp [insertRec]
  | cons y ys ih =>
    intro hp
    rw [List.pairwise_cons] at hp
    by_cases h : pyStrLt (getKey ki y) (getKey ki x) = true
    · simp only [insertRec, if_pos h]
      rw [List.pairwise_cons]
      refine ⟨?_, ih hp.2⟩
      intro z hz
      rcases mem_insertRec hz with rfl | hzys
      · exact pyStrLt_asymm h
      · exact hp.1 z hzys
    · have h' : pyStrLt (getKey ki y) (getKey ki x) = false := by
        simpa using h
      simp only [insertRec, if_neg h]
      rw [List.pairwise_cons]
      refine ⟨?_, List.pairwise_cons.2 ⟨hp.1, hp.2⟩⟩
      intro z hz
      rcases List.mem_cons.1 hz with rfl | hzys
      · exact h'
      · exact pyStrLt_false_trans h' (hp.1 z hzys)

theorem filter_insertRec_pos (ki : Nat) (x : PyRec) (k : String)
    (hk : (getKey ki x == k) = true) :
    ∀ l : List PyRec,
      (insertRec ki x l).filter (fun r => getKey ki r == k) =
        x :: l.filter (fun r => getKey ki r == k) := by
  have hkx : getKey ki x = k := by simpa using hk
  intro l
  induction l with
  | nil => simp [insertRec, hk]
  | cons y ys ih =>
    by_cases h : pyStrLt (getKey ki y) (getKey ki x) = true
    · have hyk : (getKey ki y == k) = false := by
        rw [Bool.eq_false_iff]
        intro hbeq
        have hy : getKey ki y = k := by simpa using hbeq
        rw [hy, hkx, pyStrLt_irrefl] at h
        exact Bool.false_ne_true h
      simp only [insertRec, if_pos h, List.filter_cons, hyk]
      simpa [hyk] using ih
    · simp [insertRec, h, List.filter_cons, hk]

theorem filter_insertRec_neg (ki : Nat) (x : PyRec) (k : String)
    (hk : (getKey ki x == k) = false) :
    ∀ l : List PyRec,
      (insertRec ki x l).filter (fun r => getKey ki r == k) =
        l.filter (fun r => getKey ki r == k) := by
  intro l
  induction l with
  | nil => simp [insertRec, hk]
  | cons y ys ih =>
    by_cases h : pyStrLt (getKey ki y) (getKey ki x) = true
    · simp only [insertRec, if_pos h, List.filter_cons]
      rw [ih]
    · simp [insertRec, h, List.filter_cons, hk]

theorem insertionSortRec_perm (ki : Nat) :
    ∀ l : List PyRec, (insertionSortRec ki l).Perm l := by
  intro l
  induction l with
  | nil => simp [insertionSortRec]
  | cons x xs ih =>
    exact (insertRec_perm ki x (insertionSortRec ki xs)).trans (ih.cons x)

theorem insertionSortRec_pairwise (ki : Nat) :
    ∀ l : List PyRec,
      (insertionSortRec ki l).Pairwise
        (fun a b => pyStrLt (getKey ki b) (getKey ki a) = false) := by
  intro l
  induction l with
  | nil => simp [insertionSortRec]
  | cons x xs ih => exact pairwise_insertRec ki x _ ih

theorem insertionSortRec_filter (ki : Nat) (k : String) :
    ∀ l : List PyRec,
      (insertionSortRec ki l).filter (fun r => getKey ki r == k) =
        l.filter (fun r => getKey ki r == k) := by
  intro l
  induction l with
  | nil => rfl
  | cons x xs ih =>
    cases hx : (getKey ki x == k) with
    | true =>
      rw [show insertionSortRec ki (x :: xs) =
          insertRec ki x (insertionSortRec ki xs) from rfl,
        filter_insertRec_pos ki x k hx _, ih, List.filter_cons, hx]
      simp
    | false =>
      rw [show insertionSortRec ki (x :: xs) =
          insertRec ki x (insertionSortRec ki xs) from rfl,
        filter_insertRec_neg ki x k hx _, ih, List.filter_cons, hx]
      simp

/-- **C6.** After the per-shard sort, the shard's records are in
non-decreasing order of the key field (no later record's key is strictly
below an earlier one's), the sorted shard is a permutation of the original,
and the sort is stable: for every key value, the records carrying that key
appear in their original relative order. -/
theorem sort_partition_c6 (records : List PyRec) (ki : Nat)
    (_hrec : ∀ r ∈ records, ki < r.length) :
    (sort_partition records ki).Perm records ∧
    (sort_partition records ki).Pairwise
      (fun a b => pyStrLt (getKey ki b) (getKey ki a) = false) ∧
    ∀ k : String,
      (sort_partition records ki).filter (fun r => getKey ki r == k) =
        records.filter (fun r => getKey ki r == k) :=
  ⟨insertionSortRec_perm ki records,
   insertionSortRec_pairwise ki records,
   fun k => insertionSortRec_filter ki k records⟩

/-- Witness for `sort_partition_c6`: a concrete three-record shard with a
duplicated key, sorted on field 0. -/
theorem sort_partition_c6_witness :
    (sort_partition [["RU", "a"], ["AU", "b"], ["AU", "c"]] 0).Perm
      [["RU", "a"], ["AU", "b"], ["AU", "c"]] ∧
    (sort_partition [["RU", "a"], ["AU", "b"], ["AU", "c"]] 0).Pairwise
      (fun a b => pyStrLt (getKey 0 b) (getKey 0 a) = false) ∧
    ∀ k : String,
      (sort_partition [["RU", "a"], ["AU", "b"], ["AU", "c"]] 0).filter
          (fun r => getKey 0 r == k) =
        [["RU", "a"], ["AU", "b"], ["AU", "c"]].filter
          (fun r => getKey 0 r == k) :=
  sort_partition_c6 [["RU", "a"], ["AU", "b"], ["AU", "c"]] 0 (by decide)

/-- **C10.** When the frame's projection omits the key field, `__getitem__`
auto-inserts the key name at position 0 of the shard's projected field
names, the shard's `key_index` is 0, the first projected field index is the
key's index in the stored record, and every record the shard yields carries
the key value as its first element (the projected order is key-first, not
the caller's requested order). -/
theorem getitem_autokey_c10 (cfg : FrameConfig) (i : Int)
    (content : List PyRec)
    (hkey : cfg.key_name ∉ cfg.selected_fields)
    (hnodup : cfg.field_names.Nodup)
    (hki : cfg.key_index < cfg.field_names.length)
    (hi : i < (cfg.num_partitions : Int)) :
    ∃ p : PyPartition, frame_getitem cfg i = .ok p ∧
      p.field_names = cfg.key_name :: cfg.selected_fields ∧
      p.key_index = 0 ∧
      p.field_indices.head? = some cfg.key_index ∧
      (partIterate content p.field_indices none).1.map List.head? =
        content.map (fun r => some (r.getD cfg.key_index "")) := by
  have hkn : cfg.field_names.indexOf cfg.key_name = cfg.key_index := by
    have hname : cfg.key_name = cfg.field_names[cfg.key_index] :=
      List.getD_eq_getElem cfg.field_names "" hki
    rw [hname]
    exact List.indexOf_getElem hnodup cfg.key_index hki
  refine ⟨⟨i,
      (cfg.key_name :: cfg.selected_fields).map
        (fun f => cfg.field_names.indexOf f),
      cfg.key_name :: cfg.selected_fields,
      (cfg.key_name :: cfg.selected_fields).indexOf cfg.key_name⟩,
    ?_, rfl, ?_, ?_, ?_⟩
  · simp only [frame_getitem, if_neg (Int.not_le.2 hi), if_neg hkey]
  · simp [List.indexOf_cons_self]
  · simp [hkn]
  · have hall := drainFuel_all content
      ((cfg.key_name :: cfg.selected_fields).map
        (fun f => cfg.field_names.indexOf f))
      (content.length + 1) 0 (by omega)
    simp only [partIterate, Option.getD_none, hall, List.drop_zero,
      List.map_map]
    refine List.map_congr_left ?_
    intro r _
    simp [projectRecord, hkn]

/-- Witness for `getitem_autokey_c10`: a frame with fields
`["iso", "name"]`, key `iso`, projection narrowed to `["name"]`, indexed at
shard 2, iterated over a one-record shard file. -/
theorem getitem_autokey_c10_witness :
    ∃ p : PyPartition,
      frame_getitem ⟨["iso", "name"], 0, 4, ["name"]⟩ 2 = .ok p ∧
      p.field_names = ["iso", "name"] ∧
      p.key_index = 0 ∧
      p.field_indices.head? = some 0 ∧
      (partIterate [["AU", "Australia"]] p.field_indices none).1.map
          List.head? =
        [["AU", "Australia"]].map (fun r => some (r.getD 0 "")) :=
  getitem_autokey_c10 ⟨["iso", "name"], 0, 4, ["name"]⟩ 2 [["AU", "Australia"]]
    (by decide) (by decide) (by decide) (by decide)
